import Mathlib

/-!
Shallow embedding of `src/main.py`, a FastAPI CRUD service over a single
JSON file holding `{ "notes": [Record...], "next_id": n }`.

Modelling conventions:
* A stored record is a decoded JSON object.  The fields `id`, `created_at`
  and `title` are always read with mandatory access (`t["id"]`, `t["title"]`,
  `t["created_at"]`) by the handlers, while `labels` and `done` are read with
  `t.get(...)`, so the latter are modelled as optional fields.
* Timestamps (`created_at`, produced by `time.time()`) are modelled as
  naturals; the handlers only ever compare them, never compute with them.
* Dates (`due_date`) are modelled as opaque strings (their JSON encoding).
* The persisted JSON blob is modelled by the inductive `Jval`; `load_db`
  decodes a blob into a `DB`, `save_db` encodes a `DB` back into a blob.
* An HTTP 404 (`HTTPException(status_code=404)`) is modelled as `none`.
-/

namespace Lab3

/-- Input payload, mirroring the pydantic model `TaskIn` of `src/main.py`:
`title`, `done` (defaulted to `False` by pydantic), `priority`, `labels`
(defaulted to `[]`), and an optional `due_date`. -/
structure TaskIn where
  title : String
  done : Bool
  priority : Nat
  labels : List String
  due_date : Option String
deriving DecidableEq

/-- A stored record, as it lives inside the JSON file.  `labels` and `done`
(and `priority`, `due_date`) may be absent from the stored object, which the
handlers tolerate via `t.get(...)` or never read; `id`, `created_at` and
`title` are accessed unconditionally. -/
structure Record where
  id : Nat
  created_at : Nat
  title : String
  done : Option Bool
  priority : Option Nat
  labels : Option (List String)
  due_date : Option String
deriving DecidableEq

/-- The decoded persisted state: the `"notes"` array plus the optional
`"next_id"` counter (`create_task` reads it with `db.get("next_id", 1)`,
so its absence is meaningful). -/
structure DB where
  notes : List Record
  next_id : Option Nat
deriving DecidableEq

/-- `int(db.get("next_id", 1))` from `create_task`. -/
def nextId (db : DB) : Nat := db.next_id.getD 1

/-- The empty persisted state written by `_ensure_db`:
`{"notes": [], "next_id": 1}`. -/
def init_db : DB := { notes := [], next_id := some 1 }

/-- The record dictionary `{"id": ..., "created_at": ..., **task.dict(exclude_none=True)}`
built by both `create_task` and `update_task`.  `title`, `done`, `priority`
and `labels` are never `None` on a validated `TaskIn`, so only `due_date`
can be dropped by `exclude_none=True`. -/
def recFromInput (i ca : Nat) (task : TaskIn) : Record :=
  { id := i, created_at := ca, title := task.title, done := some task.done,
    priority := some task.priority, labels := some task.labels,
    due_date := task.due_date }

/-- `create_task` (src/main.py:117-127): allocate `new_id = int(db.get("next_id", 1))`,
build the record with `created_at = time.time()` (passed in as `now`), append
it to `db["notes"]`, set `db["next_id"] = new_id + 1`, save, return the record. -/
def create_task (db : DB) (task : TaskIn) (now : Nat) : DB × Record :=
  let new_id := nextId db
  let rec' := recFromInput new_id now task
  ({ notes := db.notes ++ [rec'], next_id := some (new_id + 1) }, rec')

/-- `get_task` (src/main.py:108-114): linear scan for the first record with
the given id; 404 (`none`) if there is none. -/
def get_task (db : DB) (task_id : Nat) : Option Record :=
  db.notes.find? (fun t => decide (t.id = task_id))

/-- The loop of `update_task`: replace the first record whose id matches,
in place, by the rebuilt record (same `id`, original `created_at`, all other
fields from the input); `none` when no record matches. -/
def updateNotes (task_id : Nat) (task : TaskIn) : List Record → Option (List Record × Record)
  | [] => none
  | t :: rest =>
    if t.id = task_id then
      let u := recFromInput task_id t.created_at task
      some (u :: rest, u)
    else
      (updateNotes task_id task rest).map (fun p => (t :: p.1, p.2))

/-- `update_task` (src/main.py:130-140): locate by id, rebuild the record
preserving `id` and `created_at`, write it back at the same index, save;
404 (`none`) if the id is absent. -/
def update_task (db : DB) (task_id : Nat) (task : TaskIn) : Option (DB × Record) :=
  (updateNotes task_id task db.notes).map
    (fun p => ({ db with notes := p.1 }, p.2))

/-- The loop of `delete_task`: pop the first record whose id matches;
`none` when no record matches. -/
def deleteNotes (task_id : Nat) : List Record → Option (List Record)
  | [] => none
  | t :: rest =>
    if t.id = task_id then some rest
    else (deleteNotes task_id rest).map (t :: ·)

/-- `delete_task` (src/main.py:143-152): remove the first record with the
given id and save; 404 (`none`) if the id is absent. -/
def delete_task (db : DB) (task_id : Nat) : Option DB :=
  (deleteNotes task_id db.notes).map (fun ns => { db with notes := ns })

/-- Python's `str.lower()`: lowercase the string character by character
(equivalent to `String.toLower`, but stated on the character list so that it
evaluates by kernel reduction). -/
def lower (s : String) : String := ⟨s.data.map Char.toLower⟩

/-- One record's text-filter test from `list_tasks` (src/main.py:95-96):
`ql in t["title"].lower() or any(ql in l.lower() for l in t.get("labels", []))`,
where `ql` is the already-lowercased query string and Python's `in` is
contiguous-substring containment (modelled as `List.IsInfix` on the
character lists). -/
def recMatches (ql : String) (t : Record) : Bool :=
  decide (ql.data <:+: (lower t.title).data) ||
    (t.labels.getD []).any (fun l => decide (ql.data <:+: (lower l).data))

/-- The `if q:` filter step of `list_tasks` (src/main.py:92-96); Python
truthiness makes `None` and the empty string skip the filter. -/
def filterByQ (q : Option String) (data : List Record) : List Record :=
  match q with
  | none => data
  | some s => if s = "" then data else data.filter (recMatches (lower s))

/-- The `if done is not None:` filter step of `list_tasks` (src/main.py:98-99):
`t.get("done") == done`; a record without a `done` key yields `None`, which
equals neither `True` nor `False`. -/
def filterDone (done : Option Bool) (data : List Record) : List Record :=
  match done with
  | none => data
  | some d => data.filter (fun t => t.done == some d)

/-- The comparison used by `sorted(..., key=lambda t: t["created_at"],
reverse=True)`: with `reverse=True` Python compares in reverse while staying
stable, i.e. it stable-sorts by the total preorder `b.created_at ≤ a.created_at`. -/
def descRel (a b : Record) : Prop := b.created_at ≤ a.created_at

/-- The comparison of the non-reversed `sorted(..., key=lambda t: t["created_at"])`. -/
def ascRel (a b : Record) : Prop := a.created_at ≤ b.created_at

instance : DecidableRel descRel := fun a b => Nat.decLe b.created_at a.created_at

instance : DecidableRel ascRel := fun a b => Nat.decLe a.created_at b.created_at

instance : IsTotal Record descRel := ⟨fun a b => Nat.le_total b.created_at a.created_at⟩

instance : IsTotal Record ascRel := ⟨fun a b => Nat.le_total a.created_at b.created_at⟩

instance : IsTrans Record descRel := ⟨fun _ _ _ h1 h2 => Nat.le_trans h2 h1⟩

instance : IsTrans Record ascRel := ⟨fun _ _ _ h1 h2 => Nat.le_trans h1 h2⟩

/-- The sort step of `list_tasks` (src/main.py:101):
`sorted(data, key=lambda t: t["created_at"], reverse=(sort == "desc"))`.
Python's `sorted` is a stable sort, so it is modelled by the stable
`List.insertionSort` over the corresponding total preorder. -/
def sortByCreated (sort : String) (data : List Record) : List Record :=
  if sort = "desc" then data.insertionSort descRel else data.insertionSort ascRel

/-- The full filter/sort pipeline of `list_tasks` (src/main.py:89-101),
up to but excluding the final `paginate(data)` call. -/
def list_tasks (db : DB) (q : Option String) (sort : String) (done : Option Bool) :
    List Record :=
  sortByCreated sort (filterDone done (filterByQ q db.notes))

/-- The page envelope: the item sequence plus `total` (count after filtering,
before pagination) and `count` (size of the returned page). -/
structure Page where
  items : List Record
  total : Nat
  count : Nat
deriving DecidableEq

/-- Modelled from the spec: the body of the `paginate(data)` call in
`list_tasks` comes from the external `fastapi_pagination` package, whose code
is not part of this repository.  Per the spec's pagination contract it is
offset/limit slicing: return the records at positions `[offset, offset+limit)`
(clamped to the available range, empty if `offset ≥ total`), reporting
`total` as the count after filtering and before pagination and `count` as the
size of the returned page. -/
def paginate (data : List Record) (limit offset : Nat) : Page :=
  { items := (data.drop offset).take limit
    total := data.length
    count := ((data.drop offset).take limit).length }

/-- The whole GET `/tasks` handler as a state transformer: it loads the
persisted state, derives a page, and performs no save, so the persisted
state component is returned unchanged. -/
def list_tasks_op (db : DB) (q : Option String) (sort : String)
    (done : Option Bool) (limit offset : Nat) : DB × Page :=
  (db, paginate (list_tasks db q sort done) limit offset)

/-! ### The persisted JSON blob (`load_db` / `save_db`) -/

/-- A JSON value, as produced by `json.load` on the data file.  Numbers are
modelled as naturals (ids and the `next_id` counter are ints; timestamps are
modelled as naturals throughout). -/
inductive Jval where
  | null : Jval
  | bool (b : Bool) : Jval
  | num (n : Nat) : Jval
  | str (s : String) : Jval
  | arr (xs : List Jval) : Jval
  | obj (kvs : List (String × Jval)) : Jval

/-- Key lookup in a decoded JSON object.  `json.load` produces a Python dict,
whose keys are unique, so first-match lookup is faithful. -/
def jlookup : List (String × Jval) → String → Option Jval
  | [], _ => none
  | (k, v) :: rest, key => if k = key then some v else jlookup rest key

/-- Read a JSON value as an integer. -/
def asNat : Jval → Option Nat
  | .num n => some n
  | _ => none

/-- Read a JSON value as a string. -/
def asStr : Jval → Option String
  | .str s => some s
  | _ => none

/-- Read a JSON value as a boolean. -/
def asBool : Jval → Option Bool
  | .bool b => some b
  | _ => none

/-- Read a JSON array of strings. -/
def decStrs : List Jval → Option (List String)
  | [] => some []
  | .str s :: rest => (decStrs rest).map (s :: ·)
  | _ => none

/-- Read a JSON value as a string list. -/
def asStrList : Jval → Option (List String)
  | .arr xs => decStrs xs
  | _ => none

/-- Decode an optional object field: an absent key decodes to `none`,
a present key must decode with `f`. -/
def optField (f : Jval → Option α) : Option Jval → Option (Option α)
  | none => some none
  | some j => (f j).map some

/-- Decode one stored record from its JSON object: `id`, `created_at` and
`title` are required, `done`/`priority`/`labels`/`due_date` are optional. -/
def recFromJson (j : Jval) : Option Record :=
  match j with
  | .obj kvs => do
    let i ← asNat (← jlookup kvs ("id"))
    let ca ← asNat (← jlookup kvs ("created_at"))
    let title ← asStr (← jlookup kvs ("title"))
    let done ← optField asBool (jlookup kvs ("done"))
    let prio ← optField asNat (jlookup kvs ("priority"))
    let labels ← optField asStrList (jlookup kvs ("labels"))
    let dd ← optField asStr (jlookup kvs ("due_date"))
    some ⟨i, ca, title, done, prio, labels, dd⟩
  | _ => none

/-- Encode one stored record back to JSON; absent optional fields produce
no key, exactly as `json.dump` writes a dict that never had them. -/
def recToJson (r : Record) : Jval :=
  .obj ([(("id" : String), Jval.num r.id),
         (("created_at" : String), Jval.num r.created_at),
         (("title" : String), Jval.str r.title)]
    ++ (match r.done with | none => [] | some b => [(("done" : String), Jval.bool b)])
    ++ (match r.priority with | none => [] | some p => [(("priority" : String), Jval.num p)])
    ++ (match r.labels with
        | none => []
        | some ls => [(("labels" : String), Jval.arr (ls.map Jval.str))])
    ++ (match r.due_date with | none => [] | some d => [(("due_date" : String), Jval.str d)]))

/-- Decode the `"notes"` array. -/
def decRecs : List Jval → Option (List Record)
  | [] => some []
  | j :: rest => do
    let r ← recFromJson j
    let rs ← decRecs rest
    some (r :: rs)

/-- `load_db` (src/main.py:27-30), restricted to its deserialization content:
`json.load` of the blob, decoded at the Record shape (`db["notes"]` array of
record objects, plus the optional `"next_id"` counter). -/
def load_db (j : Jval) : Option DB :=
  match j with
  | .obj kvs => do
    let nj ← jlookup kvs ("notes")
    let notes ← (match nj with | .arr xs => decRecs xs | _ => none)
    let nid ← optField asNat (jlookup kvs ("next_id"))
    some ⟨notes, nid⟩
  | _ => none

/-- `save_db` (src/main.py:33-35), restricted to its serialization content:
`json.dump` of the full collection, written as `{"notes": [...], "next_id": n}`
(the `next_id` key only present when the collection has one). -/
def save_db (db : DB) : Jval :=
  .obj ([(("notes" : String), Jval.arr (db.notes.map recToJson))]
    ++ (match db.next_id with | none => [] | some n => [(("next_id" : String), Jval.num n)]))

/-! ### Sequences of mutating operations -/

/-- One mutating HTTP request: POST `/tasks`, PUT `/tasks/{id}` or
DELETE `/tasks/{id}` (the wall-clock time observed by a create is part of
the operation). -/
inductive Op where
  | create (task : TaskIn) (now : Nat) : Op
  | replace (task_id : Nat) (task : TaskIn) : Op
  | remove (task_id : Nat) : Op

/-- The persisted state after one mutating request: a failed replace/remove
(404) saves nothing and leaves the state unchanged. -/
def applyOp (db : DB) : Op → DB
  | .create task now => (create_task db task now).1
  | .replace task_id task =>
    match update_task db task_id task with
    | some p => p.1
    | none => db
  | .remove task_id =>
    match delete_task db task_id with
    | some db' => db'
    | none => db

/-- The persisted state after a sequence of mutating requests. -/
def run (db : DB) : List Op → DB
  | [] => db
  | op :: ops => run (applyOp db op) ops

/-- The ids handed out by the create operations of a request sequence,
in order. -/
def assigned (db : DB) : List Op → List Nat
  | [] => []
  | .create task now :: ops =>
    (create_task db task now).2.id :: assigned (applyOp db (.create task now)) ops
  | op :: ops => assigned (applyOp db op) ops

/-! ### Concrete sample data -/

/-- A minimal stored record (only the unconditionally-read keys present). -/
def sampleRec (i : Nat) : Record :=
  { id := i, created_at := i, title := "task", done := none, priority := none,
    labels := none, due_date := none }

/-- A sample input payload. -/
def taskW : TaskIn :=
  { title := "Buy milk", done := false, priority := 2, labels := ["shopping"],
    due_date := none }

/-- Ten stored records. -/
def dataW : List Record := (List.range 10).map sampleRec

/-- A fully-populated stored record. -/
def recW1 : Record :=
  { id := 1, created_at := 5, title := "Buy milk", done := some false,
    priority := some 2, labels := some ["home"], due_date := none }

/-- A stored record with the same timestamp as `recW1` and a due date. -/
def recW2 : Record :=
  { id := 2, created_at := 5, title := "Buy eggs", done := some true,
    priority := some 1, labels := none, due_date := some ("2026-01-01") }

/-- A two-record collection. -/
def dbW : DB := { notes := [recW1, recW2], next_id := some 3 }

/-- `dbW` after deleting the record with id 1. -/
def dbW1 : DB := { notes := [recW2], next_id := some 3 }

/-- A record whose title contains the word zebra. -/
def zrecW : Record :=
  { id := 7, created_at := 3, title := "zebra stripes", done := none,
    priority := none, labels := some [], due_date := none }

/-- Two creates with a delete in between. -/
def opsW : List Op := [.create taskW 5, .remove 1, .create taskW 3]

/-- A persisted blob (with the keys in an unusual order). -/
def jW : Jval :=
  .obj [(("next_id" : String), Jval.num 5),
        (("notes" : String), Jval.arr [recToJson recW2])]

/-- The collection `jW` decodes to. -/
def dbRT : DB := { notes := [recW2], next_id := some 5 }

/-! ### Helper lemmas about the update/delete loops -/

lemma updateNotes_of_not_mem (task_id : Nat) (task : TaskIn) :
    ∀ notes : List Record, (∀ t ∈ notes, t.id ≠ task_id) →
      updateNotes task_id task notes = none := by
  intro notes
  induction notes with
  | nil => intro _; rfl
  | cons t rest ih =>
    intro h
    have ht : t.id ≠ task_id := h t (List.mem_cons_self t rest)
    have := ih (fun x hx => h x (List.mem_cons_of_mem t hx))
    simp [updateNotes, ht, this]

lemma deleteNotes_of_not_mem (task_id : Nat) :
    ∀ notes : List Record, (∀ t ∈ notes, t.id ≠ task_id) →
      deleteNotes task_id notes = none := by
  intro notes
  induction notes with
  | nil => intro _; rfl
  | cons t rest ih =>
    intro h
    have ht : t.id ≠ task_id := h t (List.mem_cons_self t rest)
    have := ih (fun x hx => h x (List.mem_cons_of_mem t hx))
    simp [deleteNotes, ht, this]

lemma find?_of_not_mem (task_id : Nat) {notes : List Record}
    (h : ∀ t ∈ notes, t.id ≠ task_id) :
    notes.find? (fun t => decide (t.id = task_id)) = none :=
  List.find?_eq_none.mpr (fun x hx => by simpa using h x hx)

lemma updateNotes_exists (task_id : Nat) (task : TaskIn) :
    ∀ notes : List Record, (∃ t ∈ notes, t.id = task_id) →
      ∃ i told, notes[i]? = some told ∧ told.id = task_id ∧
        updateNotes task_id task notes =
          some (notes.set i (recFromInput task_id told.created_at task),
                recFromInput task_id told.created_at task) := by
  intro notes
  induction notes with
  | nil => rintro ⟨t, ht, -⟩; cases ht
  | cons t rest ih =>
    rintro ⟨x, hx, hxid⟩
    by_cases htid : t.id = task_id
    · exact ⟨0, t, by simp, htid, by simp [updateNotes, htid]⟩
    · have hrest : ∃ y ∈ rest, y.id = task_id := by
        rcases List.mem_cons.mp hx with h | h
        · exact absurd hxid (h ▸ htid)
        · exact ⟨x, h, hxid⟩
      obtain ⟨i, told, hget, hid, heq⟩ := ih hrest
      exact ⟨i + 1, told, by simpa using hget, hid, by simp [updateNotes, htid, heq]⟩

lemma updateNotes_some (task_id : Nat) (task : TaskIn) :
    ∀ (notes : List Record) p, updateNotes task_id task notes = some p →
      ∃ i told, notes[i]? = some told ∧ told.id = task_id ∧
        p.1 = notes.set i (recFromInput task_id told.created_at task) ∧
        p.2 = recFromInput task_id told.created_at task := by
  intro notes
  induction notes with
  | nil => intro p h; cases h
  | cons t rest ih =>
    intro p h
    by_cases htid : t.id = task_id
    · simp [updateNotes, htid] at h
      exact ⟨0, t, by simp, htid, by simp [← h], by simp [← h]⟩
    · simp only [updateNotes, if_neg htid, Option.map_eq_some'] at h
      obtain ⟨q, hq, hpq⟩ := h
      obtain ⟨i, told, hget, hid, h1, h2⟩ := ih q hq
      exact ⟨i + 1, told, by simpa using hget, hid,
        by simp [← hpq, h1], by simp [← hpq, h2]⟩

lemma deleteNotes_some (task_id : Nat) :
    ∀ (notes notes' : List Record), deleteNotes task_id notes = some notes' →
      ∀ x ∈ notes', x ∈ notes := by
  intro notes
  induction notes with
  | nil => intro notes' h; cases h
  | cons t rest ih =>
    intro notes' h
    by_cases htid : t.id = task_id
    · simp [deleteNotes, htid] at h
      exact fun x hx => List.mem_cons_of_mem t (h ▸ hx)
    · simp only [deleteNotes, if_neg htid, Option.map_eq_some'] at h
      obtain ⟨rest', hrest', hcons⟩ := h
      intro x hx
      rcases List.mem_cons.mp (hcons ▸ hx) with h | h
      · exact h ▸ List.mem_cons_self t rest
      · exact List.mem_cons_of_mem t (ih rest' hrest' x h)

lemma deleteNotes_removes (task_id : Nat) :
    ∀ (notes notes' : List Record), (notes.map Record.id).Nodup →
      deleteNotes task_id notes = some notes' →
      ∀ x ∈ notes', x.id ≠ task_id := by
  intro notes
  induction notes with
  | nil => intro notes' _ h; cases h
  | cons t rest ih =>
    intro notes' hn h
    obtain ⟨hn1, hn2⟩ : (∀ x ∈ rest, ¬x.id = t.id) ∧ (rest.map Record.id).Nodup := by
      simpa using hn
    by_cases htid : t.id = task_id
    · simp [deleteNotes, htid] at h
      intro x hx
      exact fun hxid => hn1 x (h ▸ hx) (hxid.trans htid.symm)
    · simp only [deleteNotes, if_neg htid, Option.map_eq_some'] at h
      obtain ⟨rest', hrest', hcons⟩ := h
      intro x hx
      rcases List.mem_cons.mp (hcons ▸ hx) with h | h
      · exact h ▸ htid
      · exact ih rest' hn2 hrest' x h

lemma not_present_404 (db : DB) (task_id : Nat) (task : TaskIn)
    (h : ∀ t ∈ db.notes, t.id ≠ task_id) :
    get_task db task_id = none ∧ update_task db task_id task = none ∧
      delete_task db task_id = none := by
  refine ⟨find?_of_not_mem task_id h, ?_, ?_⟩
  · simp [update_task, updateNotes_of_not_mem task_id task db.notes h]
  · simp [delete_task, deleteNotes_of_not_mem task_id db.notes h]

/-! ### Helper lemmas about operation sequences -/

lemma nextId_create (db : DB) (task : TaskIn) (now : Nat) :
    nextId (applyOp db (.create task now)) = nextId db + 1 := rfl

lemma nextId_replace (db : DB) (task_id : Nat) (task : TaskIn) :
    nextId (applyOp db (.replace task_id task)) = nextId db := by
  simp only [applyOp, update_task]
  cases h : updateNotes task_id task db.notes with
  | none => simp
  | some p => simp [nextId]

lemma nextId_remove (db : DB) (task_id : Nat) :
    nextId (applyOp db (.remove task_id)) = nextId db := by
  simp only [applyOp, delete_task]
  cases h : deleteNotes task_id db.notes with
  | none => simp
  | some ns => simp [nextId]

lemma inv_applyOp (db : DB) (op : Op)
    (h : ∀ r ∈ db.notes, r.id < nextId db) :
    ∀ r ∈ (applyOp db op).notes, r.id < nextId (applyOp db op) := by
  cases op with
  | create task now =>
    intro r hr
    rw [nextId_create]
    simp only [applyOp, create_task, List.mem_append, List.mem_singleton] at hr
    rcases hr with hr | hr
    · exact Nat.lt_succ_of_lt (h r hr)
    · simp [hr, recFromInput]
  | replace task_id task =>
    intro r hr
    rw [nextId_replace]
    revert hr
    simp only [applyOp, update_task]
    cases hu : updateNotes task_id task db.notes with
    | none => exact h r
    | some p =>
      intro hr
      obtain ⟨i, told, hget, hid, h1, -⟩ := updateNotes_some task_id task db.notes p hu
      simp only [Option.map_some'] at hr
      rcases List.mem_or_eq_of_mem_set (h1 ▸ hr) with hmem | hset
      · exact h r hmem
      · have : told.id < nextId db := h told (List.getElem?_mem hget)
        simpa [hset, recFromInput, hid] using this
  | remove task_id =>
    intro r hr
    rw [nextId_remove]
    revert hr
    simp only [applyOp, delete_task]
    cases hd : deleteNotes task_id db.notes with
    | none => exact h r
    | some ns =>
      intro hr
      exact h r (deleteNotes_some task_id db.notes ns hd r (by simpa using hr))

lemma inv_run (ops : List Op) :
    ∀ db : DB, (∀ r ∈ db.notes, r.id < nextId db) →
      ∀ r ∈ (run db ops).notes, r.id < nextId (run db ops) := by
  induction ops with
  | nil => intro db h; exact h
  | cons op ops ih => intro db h; exact ih (applyOp db op) (inv_applyOp db op h)

lemma assigned_bounds (ops : List Op) :
    ∀ db : DB, (∀ x ∈ assigned db ops, nextId db ≤ x) ∧
      List.Chain' (· < ·) (assigned db ops) := by
  induction ops with
  | nil => intro db; simp [assigned]
  | cons op ops ih =>
    intro db
    cases op with
    | create task now =>
      obtain ⟨ih1, ih2⟩ := ih (applyOp db (.create task now))
      rw [nextId_create] at ih1
      have hhead : (create_task db task now).2.id = nextId db := rfl
      constructor
      · intro x hx
        simp only [assigned, List.mem_cons] at hx
        rcases hx with rfl | hx
        · exact Nat.le_of_eq hhead.symm
        · exact Nat.le_of_succ_le (ih1 x hx)
      · rw [assigned, List.chain'_cons']
        refine ⟨fun y hy => ?_, ih2⟩
        have : y ∈ assigned (applyOp db (.create task now)) ops :=
          List.mem_of_mem_head? hy
        exact Nat.lt_of_lt_of_le (hhead ▸ Nat.lt_succ_self _) (ih1 y this)
    | replace task_id task =>
      obtain ⟨ih1, ih2⟩ := ih (applyOp db (.replace task_id task))
      rw [nextId_replace] at ih1
      exact ⟨fun x hx => ih1 x (by simpa [assigned] using hx),
        by simpa [assigned] using ih2⟩
    | remove task_id =>
      obtain ⟨ih1, ih2⟩ := ih (applyOp db (.remove task_id))
      rw [nextId_remove] at ih1
      exact ⟨fun x hx => ih1 x (by simpa [assigned] using hx),
        by simpa [assigned] using ih2⟩

/-! ### Helper lemmas about sorting -/

lemma insertionSort_filter_key (r : Record → Record → Prop) [DecidableRel r]
    (hkey : ∀ a b : Record, a.created_at = b.created_at → r a b)
    (data : List Record) (c : Nat) :
    (data.insertionSort r).filter (fun t => t.created_at == c) =
      data.filter (fun t => t.created_at == c) := by
  set p : Record → Bool := fun t => t.created_at == c with hp
  have hmemc : ∀ a ∈ data.filter p, a.created_at = c := by
    intro a ha
    have := (List.mem_filter.mp ha).2
    simpa [hp] using this
  have hpair : (data.filter p).Pairwise r :=
    List.pairwise_of_forall_mem_list
      (fun a ha b hb => hkey a b ((hmemc a ha).trans (hmemc b hb).symm))
  have hsub : List.Sublist (data.filter p) (data.insertionSort r) :=
    List.sublist_insertionSort hpair (List.filter_sublist data)
  have hsub2 : List.Sublist (data.filter p) ((data.insertionSort r).filter p) := by
    have h1 := hsub.filter p
    rwa [List.filter_eq_self.mpr (fun a ha => (List.mem_filter.mp ha).2)] at h1
  have hperm : List.Perm ((data.insertionSort r).filter p) (data.filter p) :=
    (List.perm_insertionSort r data).filter p
  exact (hsub2.eq_of_length hperm.length_eq.symm).symm

/-! ### Helper lemmas about serialization -/

lemma decStrs_map (ls : List String) : decStrs (ls.map Jval.str) = some ls := by
  induction ls with
  | nil => rfl
  | cons s rest ih => simp [List.map, decStrs, ih]

lemma recFromJson_recToJson (r : Record) : recFromJson (recToJson r) = some r := by
  obtain ⟨i, ca, title, done, prio, labels, dd⟩ := r
  cases done <;> cases prio <;> cases labels <;> cases dd <;>
    simp [recFromJson, recToJson, jlookup, asNat, asStr, asBool, asStrList,
      optField, decStrs_map]

lemma decRecs_map (notes : List Record) :
    decRecs (notes.map recToJson) = some notes := by
  induction notes with
  | nil => rfl
  | cons r rest ih => simp [List.map, decRecs, recFromJson_recToJson, ih]

/-! ### The claims -/

/-- Claim C1: starting from the freshly-initialized store, over any sequence
of mutating requests (creates interleaved with removes and replaces) the ids
assigned by the creates are strictly increasing — hence never repeated — and
after the whole sequence (any prefix being itself such a sequence) every
stored record's id is strictly below the `next_id` counter. -/
theorem assigned_ids_strictly_increasing (ops : List Op) :
    List.Pairwise (· < ·) (assigned init_db ops) ∧
      ∀ r ∈ (run init_db ops).notes, r.id < nextId (run init_db ops) :=
  ⟨List.chain'_iff_pairwise.mp (assigned_bounds ops init_db).2,
   inv_run ops init_db (fun r hr => by cases hr)⟩

theorem assigned_ids_strictly_increasing_w :
    assigned init_db opsW = [1, 2] ∧
      List.Pairwise (· < ·) (assigned init_db opsW) :=
  ⟨by decide, (assigned_ids_strictly_increasing opsW).1⟩

/-- Claim C2: when a record with the requested id exists, `update_task`
replaces it in place (same index, every other record untouched) by a record
with the same `id`, the original `created_at`, and every other field taken
from the input payload. -/
theorem replace_frame (db : DB) (task_id : Nat) (task : TaskIn)
    (h : ∃ t ∈ db.notes, t.id = task_id) :
    ∃ i told, db.notes[i]? = some told ∧ told.id = task_id ∧
      update_task db task_id task =
        some ({ db with
                  notes := db.notes.set i (recFromInput task_id told.created_at task) },
              recFromInput task_id told.created_at task) ∧
      (recFromInput task_id told.created_at task).id = told.id ∧
      (recFromInput task_id told.created_at task).created_at = told.created_at ∧
      (recFromInput task_id told.created_at task).title = task.title ∧
      (recFromInput task_id told.created_at task).done = some task.done ∧
      (recFromInput task_id told.created_at task).priority = some task.priority ∧
      (recFromInput task_id told.created_at task).labels = some task.labels ∧
      (recFromInput task_id told.created_at task).due_date = task.due_date := by
  obtain ⟨i, told, hget, hid, hupd⟩ := updateNotes_exists task_id task db.notes h
  exact ⟨i, told, hget, hid, by simp [update_task, hupd], hid.symm, rfl, rfl,
    rfl, rfl, rfl, rfl⟩

theorem replace_frame_w :
    update_task dbW 2 taskW =
      some ({ dbW with notes := dbW.notes.set 1 (recFromInput 2 5 taskW) },
            recFromInput 2 5 taskW) :=
  (replace_frame dbW 2 taskW ⟨recW2, by decide, rfl⟩).elim (fun _ _ => by decide)

/-- Claim C3: under the Collection's id-uniqueness invariant, a fetch,
replace or remove of an id that is not present fails with 404 (`none`); and
after a successful remove of an id, any subsequent fetch, replace or remove
of that id fails with 404. -/
theorem not_found_behavior (db : DB) (task_id : Nat) (task : TaskIn)
    (huniq : (db.notes.map Record.id).Nodup) :
    ((∀ t ∈ db.notes, t.id ≠ task_id) →
      get_task db task_id = none ∧ update_task db task_id task = none ∧
        delete_task db task_id = none) ∧
    ∀ db', delete_task db task_id = some db' →
      get_task db' task_id = none ∧ update_task db' task_id task = none ∧
        delete_task db' task_id = none := by
  refine ⟨fun h => not_present_404 db task_id task h, ?_⟩
  intro db' hdel
  simp only [delete_task, Option.map_eq_some'] at hdel
  obtain ⟨ns, hns, hdb'⟩ := hdel
  have hnotes : db'.notes = ns := by rw [← hdb']
  have habs : ∀ t ∈ db'.notes, t.id ≠ task_id := by
    rw [hnotes]
    exact deleteNotes_removes task_id db.notes ns huniq hns
  exact not_present_404 db' task_id task habs

theorem not_found_behavior_w :
    (get_task dbW 7 = none ∧ update_task dbW 7 taskW = none ∧
      delete_task dbW 7 = none) ∧
    (get_task dbW1 1 = none ∧ update_task dbW1 1 taskW = none ∧
      delete_task dbW1 1 = none) :=
  ⟨(not_found_behavior dbW 7 taskW (by decide)).1 (by decide),
   (not_found_behavior dbW 1 taskW (by decide)).2 dbW1 (by decide)⟩

/-- Claim C4: for a non-empty filter text, the text-filter step keeps exactly
the records whose lowercased title, or any of whose lowercased labels, has
the lowercased filter text as a contiguous substring. -/
theorem filter_case_insensitive (data : List Record) (q : String) (hq : q ≠ "") :
    filterByQ (some q) data = data.filter (fun t =>
      decide ((lower q).data <:+: (lower t.title).data ∨
        ∃ l ∈ t.labels.getD [], (lower q).data <:+: (lower l).data)) := by
  simp only [filterByQ, if_neg hq]
  apply List.filter_congr
  intro t _
  rw [Bool.decide_or, List.decide_exists_mem]
  rfl

theorem filter_case_insensitive_w :
    filterByQ (some ("ZEBRA")) [zrecW] = [zrecW] :=
  (filter_case_insensitive [zrecW] ("ZEBRA") (by decide)).trans (by decide)

/-- Claim C5: the sort step orders the filtered records by `created_at` —
descending when the sort token is `"desc"`, ascending for any other token —
it permutes them (adds or drops nothing), and it is stable: the records
carrying any fixed timestamp appear in their pre-sort relative order. -/
theorem sort_by_created_at (s : String) (data : List Record) (c : Nat) :
    List.Sorted (fun a b : Record => b.created_at ≤ a.created_at)
      (sortByCreated ("desc") data) ∧
    (s ≠ "desc" → List.Sorted (fun a b : Record => a.created_at ≤ b.created_at)
      (sortByCreated s data)) ∧
    List.Perm (sortByCreated s data) data ∧
    (sortByCreated s data).filter (fun t => t.created_at == c) =
      data.filter (fun t => t.created_at == c) := by
  refine ⟨?_, ?_, ?_, ?_⟩
  · simp only [sortByCreated, if_pos rfl]
    exact List.sorted_insertionSort descRel data
  · intro hs
    simp only [sortByCreated, if_neg hs]
    exact List.sorted_insertionSort ascRel data
  · unfold sortByCreated
    split <;> exact List.perm_insertionSort _ _
  · unfold sortByCreated
    split
    · exact insertionSort_filter_key descRel
        (fun a b h => Nat.le_of_eq h.symm) data c
    · exact insertionSort_filter_key ascRel
        (fun a b h => Nat.le_of_eq h) data c

theorem sort_by_created_at_w :
    List.Sorted (fun a b : Record => a.created_at ≤ b.created_at)
      (sortByCreated ("asc") [recW1, recW2]) ∧
    sortByCreated ("asc") [recW1, recW2] = [recW1, recW2] ∧
    (sortByCreated ("asc") [recW1, recW2]).filter (fun t => t.created_at == 5) =
      [recW1, recW2].filter (fun t => t.created_at == 5) :=
  ⟨(sort_by_created_at ("asc") [recW1, recW2] 5).2.1 (by decide), by decide,
   (sort_by_created_at ("asc") [recW1, recW2] 5).2.2.2⟩

/-- Claim C6: the page envelope reports `total` as the record count before
pagination and `count` as the size of the returned page, and the page holds
exactly the records at positions `[offset, offset + limit)` of the
filtered/sorted sequence, clamped to the available range. -/
theorem paginate_slices (data : List Record) (limit offset : Nat) :
    (paginate data limit offset).total = data.length ∧
    (paginate data limit offset).count = (paginate data limit offset).items.length ∧
    (paginate data limit offset).items.length = min limit (data.length - offset) ∧
    ∀ i, i < limit → (paginate data limit offset).items[i]? = data[offset + i]? := by
  refine ⟨rfl, rfl, ?_, ?_⟩
  · simp [paginate]
  · intro i hi
    simp [paginate, List.getElem?_take, hi, List.getElem?_drop]

theorem paginate_slices_w :
    (paginate dataW 2 3).total = 10 ∧ (paginate dataW 2 3).count = 2 ∧
    (paginate dataW 2 3).items[0]? = dataW[3 + 0]? ∧
    (paginate dataW 2 3).items[1]? = dataW[3 + 1]? :=
  ⟨(paginate_slices dataW 2 3).1.trans (by decide),
   ((paginate_slices dataW 2 3).2.1).trans (by decide),
   (paginate_slices dataW 2 3).2.2.2 0 (by decide),
   (paginate_slices dataW 2 3).2.2.2 1 (by decide)⟩

/-- Claim C7: the GET `/tasks` handler never mutates the persisted state:
whatever the query parameters, the state component it returns is the state
it loaded. -/
theorem query_pure (db : DB) (q : Option String) (sort : String)
    (done : Option Bool) (limit offset : Nat) :
    (list_tasks_op db q sort done limit offset).1 = db := rfl

theorem query_pure_w :
    (list_tasks_op dbW (some ("buy")) ("desc") none 10 0).1 = dbW :=
  query_pure dbW (some ("buy")) ("desc") none 10 0

/-- Claim C8: for any blob `load_db` can decode, saving the decoded
collection and loading it again yields the very same collection, record for
record, `next_id` included — the serialization round-trip is lossless for
the Record shape. -/
theorem save_load_roundtrip (j : Jval) (db : DB) (_hload : load_db j = some db) :
    load_db (save_db db) = some db := by
  obtain ⟨notes, nid⟩ := db
  cases nid <;>
    simp [load_db, save_db, jlookup, optField, asNat, decRecs_map]

theorem save_load_roundtrip_w : load_db (save_db dbRT) = some dbRT :=
  save_load_roundtrip jW dbRT (by decide)

/-- Claim C9: when the loaded state has no `next_id` key, `create_task`
treats the counter as 1 and hands out id 1 irrespective of the ids already
stored, and persists `next_id = 2`. -/
theorem create_missing_next_id (notes : List Record) (task : TaskIn) (now : Nat) :
    (create_task ⟨notes, none⟩ task now).2.id = 1 ∧
    (create_task ⟨notes, none⟩ task now).1.next_id = some 2 ∧
    (create_task ⟨notes, none⟩ task now).1.notes =
      notes ++ [(create_task ⟨notes, none⟩ task now).2] :=
  ⟨rfl, rfl, rfl⟩

theorem create_missing_next_id_w :
    (create_task ⟨[sampleRec 41], none⟩ taskW 9).2.id = 1 ∧
    (create_task ⟨[sampleRec 41], none⟩ taskW 9).1.next_id = some 2 ∧
    (create_task ⟨[sampleRec 41], none⟩ taskW 9).1.notes =
      [sampleRec 41] ++ [(create_task ⟨[sampleRec 41], none⟩ taskW 9).2] :=
  create_missing_next_id [sampleRec 41] taskW 9

/-- Claim C10: the query filters are total on records with absent optional
keys: a record without a `labels` key is text-filtered exactly as if its
label list were empty, and a record without a `done` key is excluded by
every completion filter (`true` as well as `false`). -/
theorem filter_total_on_missing_fields (t : Record) (ql : String) (d : Bool) :
    (t.labels = none → recMatches ql t = recMatches ql { t with labels := some [] }) ∧
    (t.done = none → (t.done == some d) = false) ∧
    (t.done = none → ∀ data : List Record, t ∉ filterDone (some d) data) := by
  refine ⟨?_, ?_, ?_⟩
  · intro h
    simp [recMatches, h]
  · intro h
    rw [h]
    rfl
  · intro h data hmem
    obtain ⟨-, hd⟩ : t ∈ data ∧ t.done = some d := by simpa [filterDone] using hmem
    rw [h] at hd
    cases hd

theorem filter_total_on_missing_fields_w :
    recMatches ("task") (sampleRec 3) =
      recMatches ("task") { sampleRec 3 with labels := some [] } ∧
    ((sampleRec 3).done == some true) = false ∧
    sampleRec 3 ∉ filterDone (some true) [sampleRec 3] := by
  have h := filter_total_on_missing_fields (sampleRec 3) ("task") true
  exact ⟨h.1 rfl, h.2.1 rfl, h.2.2 rfl [sampleRec 3]⟩

end Lab3
